import Mathlib

/-!
Shallow embedding of `src/Project3/Part-I/virtmem.c`: a demand-paged
virtual-memory simulator translating logical addresses through a TLB,
a page table, a pool of 64 physical frames and one of two replacement
policies (FIFO when the policy flag `rp` is 0, LRU otherwise).

Constants from the source: TLB_SIZE = 16, PAGES = 256, PAGE_MASK = 255,
FRAMES = 64, PAGE_SIZE = 256, OFFSET_BITS = 8, OFFSET_MASK = 255.

Machine arrays are modelled as functions out of `Nat`; the page-table
sentinel -1 and the failing branch of `dequeue` (which returns -1 in C)
are modelled with `Option`. Input addresses are the nonnegative decimal
integers of the input file, modelled as `Nat`; byte values of the
backing store and of physical memory are modelled as `Int` (signed
char). Ghost fields (`outputs`, `faultEvents`) record what the program
prints and which frame each page fault assigned; they do not influence
the transition function.
-/

/-- One TLB line: `struct tlbentry` with two `unsigned char` fields. -/
structure TLBEntry where
  logical : Nat
  physical : Nat
deriving DecidableEq

/-- The TLB globals of the source: the 16-line array `tlb` (a function
from slot index) and the insert counter `tlbindex`. -/
structure TLBState where
  tlb : Nat → TLBEntry
  tlbindex : Nat

/-- Initial TLB: zero-initialised global array, counter 0. -/
def initTLB : TLBState := ⟨fun _ => ⟨0, 0⟩, 0⟩

/-- Loop body of `search_tlb`: scan `fuel` slots starting at loop
index `i`, reading line `i % 16`, returning the first matching
physical value. -/
def searchAux (t : Nat → TLBEntry) (lp : Nat) : Nat → Nat → Option Nat
  | _, 0 => none
  | i, fuel + 1 =>
    if (t (i % 16)).logical = lp then some (t (i % 16)).physical
    else searchAux t lp (i + 1) fuel

/-- `search_tlb(unsigned char logical_page)`: scans loop indices from
`max(tlbindex - 16, 0)` up to `tlbindex - 1` and returns the physical
value of the first line whose logical field matches, else none (the C
code returns -1). The `% 256` reflects the `unsigned char` parameter. -/
def search_tlb (t : TLBState) (logical_page : Nat) : Option Nat :=
  searchAux t.tlb (logical_page % 256) (t.tlbindex - 16)
    (t.tlbindex - (t.tlbindex - 16))

/-- `add_to_tlb(unsigned char logical, unsigned char physical)`: writes
line `tlbindex % 16` and increments `tlbindex`; the stored fields are
truncated to bytes by the `unsigned char` struct fields. -/
def add_to_tlb (t : TLBState) (logical physical : Nat) : TLBState :=
  { tlb := fun j =>
      if j = t.tlbindex % 16 then ⟨logical % 256, physical % 256⟩ else t.tlb j,
    tlbindex := t.tlbindex + 1 }

/-- `struct pagequeue`, the circular queue used by FIFO. -/
structure PageQueue where
  queueArray : Nat → Nat
  size : Nat
  numberOfFrames : Nat
  head : Nat
  tail : Nat

/-- `initQueue(numberOfFrames)`: empty queue, `head = 0`,
`tail = numberOfFrames - 1`. The malloc-ed array is uninitialised in C
and never read before being written; it is modelled as all zeros. -/
def initQueue (numberOfFrames : Nat) : PageQueue :=
  { queueArray := fun _ => 0, size := 0, numberOfFrames := numberOfFrames,
    head := 0, tail := numberOfFrames - 1 }

/-- `enqueue(queue, data)`: advances `tail` modulo the capacity, writes
`data` there and grows `size`; a no-op when `size == numberOfFrames`. -/
def enqueue (q : PageQueue) (data : Nat) : PageQueue :=
  if q.size = q.numberOfFrames then q
  else
    let tail' := (q.tail + 1) % q.numberOfFrames
    { q with tail := tail',
             queueArray := fun j => if j = tail' then data else q.queueArray j,
             size := q.size + 1 }

/-- `dequeue(queue)`: returns the element at `head` and shrinks the
queue; on an empty queue the C code returns -1 and leaves the queue
unchanged, modelled as `none`. -/
def dequeue (q : PageQueue) : Option Nat × PageQueue :=
  if q.size = 0 then (none, q)
  else (some (q.queueArray q.head),
        { q with head := (q.head + 1) % q.numberOfFrames, size := q.size - 1 })

/-- Loop of `get_least_recently_used_element`: after scanning frames
`0 .. n-1` it holds the pair (best index, best value), starting from
(0, 10000000); an entry updates the pair only when strictly smaller. -/
def lruScan (u : Nat → Int) : Nat → Nat × Int
  | 0 => (0, 10000000)
  | n + 1 =>
    let r := lruScan u n
    if u n < r.2 then (n, u n) else r

/-- `get_least_recently_used_element()`: index of the scan over all
FRAMES = 64 entries of `recentUsages`. -/
def get_least_recently_used_element (u : Nat → Int) : Nat :=
  (lruScan u 64).1

/-- One line printed by the program: `Virtual address: la Physical
address: pa Value: value`, plus ghost fields recording the physical
page and offset that produced it. -/
structure Output where
  la : Nat
  pa : Nat
  value : Int
  pp : Nat
  offset : Nat
deriving DecidableEq

/-- The mutable program state of `main`: the C globals plus the local
counters of the translation loop, with two ghost histories. -/
structure SimState where
  tlbState : TLBState
  pagetable : Nat → Option Nat
  recentUsages : Nat → Int
  queue : PageQueue
  main_memory : Nat → Int
  free_page : Nat
  time_count : Nat
  total_addresses : Nat
  tlb_hits : Nat
  page_faults : Nat
  outputs : List Output
  faultEvents : List (Nat × Bool)

/-- Initial state: page table all -1 (`none`), `recentUsages` all -1,
zeroed physical memory, empty queue of capacity FRAMES = 64. -/
def initState : SimState :=
  { tlbState := initTLB,
    pagetable := fun _ => none,
    recentUsages := fun _ => -1,
    queue := initQueue 64,
    main_memory := fun _ => 0,
    free_page := 0, time_count := 0, total_addresses := 0,
    tlb_hits := 0, page_faults := 0, outputs := [], faultEvents := [] }

/-- `memcpy(main_memory + pp*PAGE_SIZE, backing + lp*PAGE_SIZE,
PAGE_SIZE)`: frame `pp` now holds the 256 backing bytes of page `lp`. -/
def copyPage (backing : Nat → Int) (lp pp : Nat) (mem : Nat → Int) :
    Nat → Int :=
  fun i =>
    if pp * 256 ≤ i ∧ i < pp * 256 + 256 then backing (lp * 256 + (i - pp * 256))
    else mem i

/-- The eviction loop of `main` (lines 251-257): finds the first
`k < PAGES` with `pagetable[k] == physical_page`, sets it to -1 and
breaks. -/
def clearOwner (pt : Nat → Option Nat) (f : Nat) : Nat → Option Nat :=
  match (List.range 256).find? (fun k => decide (pt k = some f)) with
  | some k => fun j => if j = k then none else pt j
  | none => pt

/-- Inserts the new mapping into the TLB component of the state. -/
def SimState.addTLB (s : SimState) (lp pp : Nat) : SimState :=
  { s with tlbState := add_to_tlb s.tlbState lp pp }

/-- Lines 249-262 of the fault path: copy the page from the backing
store into the frame, clear the first page-table entry owning the
chosen frame, bind the faulting page and insert the mapping into the
TLB; the ghost `faultEvents` records the assigned frame and whether it
came from victim selection. -/
def loadInto (backing : Nat → Int) (lp pp : Nat) (isVictim : Bool)
    (s : SimState) : SimState :=
  let s := { s with main_memory := copyPage backing lp pp s.main_memory }
  let pt1 := clearOwner s.pagetable pp
  let s := { s with pagetable := fun k => if k = lp then some pp else pt1 k }
  let s := s.addTLB lp pp
  { s with faultEvents := s.faultEvents ++ [(pp, isVictim)] }

/-- Page-fault handling (lines 228-260): count the fault, take the next
free frame while one remains, otherwise ask the policy for a victim
(FIFO `dequeue` when `rp = 0`, LRU scan otherwise), then load the page.
Returns `none` exactly when FIFO dequeues from an empty queue (the C
code would use the -1 sentinel as a frame number). -/
def handleFault (rp : Int) (backing : Nat → Int) (s : SimState) (lp : Nat) :
    Option (Nat × SimState) :=
  let s := { s with page_faults := s.page_faults + 1 }
  let alloc : Option (Nat × SimState × Bool) :=
    if s.free_page < 64 then
      some (s.free_page, { s with free_page := s.free_page + 1 }, false)
    else if rp = 0 then
      match dequeue s.queue with
      | (some pp, q') => some (pp, { s with queue := q' }, true)
      | (none, _) => none
    else
      some (get_least_recently_used_element s.recentUsages, s, true)
  match alloc with
  | none => none
  | some (pp, s, isVictim) => some (pp, loadInto backing lp pp isVictim s)

/-- Lines 265-272: on every address FIFO enqueues the used frame and
LRU stamps `recentUsages[physical_page] = time_count`. -/
def stepPolicy (rp : Int) (s : SimState) (pp : Nat) : SimState :=
  if rp = 0 then { s with queue := enqueue s.queue pp }
  else { s with recentUsages := fun f =>
          if f = pp then (s.time_count : Int) else s.recentUsages f }

/-- Lines 274-277: compute the physical address, read the byte and
record the printed line. -/
def emit (s : SimState) (la pp off : Nat) : SimState :=
  { s with outputs :=
      s.outputs ++ [⟨la, (pp <<< 8) ||| off, s.main_memory (pp * 256 + off), pp, off⟩] }

/-- One iteration of the translation loop of `main` for input address
`la`: bump the clocks, split the address, probe the TLB, then the page
table, fault if needed, update the policy state and emit the line. -/
def step (rp : Int) (backing : Nat → Int) (s : SimState) (la : Nat) :
    Option SimState :=
  let s := { s with time_count := s.time_count + 1,
                    total_addresses := s.total_addresses + 1 }
  let off := la &&& 255
  let lp := (la >>> 8) &&& 255
  let res : Option (Nat × SimState) :=
    match search_tlb s.tlbState lp with
    | some pp => some (pp, { s with tlb_hits := s.tlb_hits + 1 })
    | none =>
      match s.pagetable lp with
      | some pp => some (pp, s.addTLB lp pp)
      | none => handleFault rp backing s lp
  match res with
  | none => none
  | some (pp, s) => some (emit (stepPolicy rp s pp) la pp off)

/-- The translation loop from a given state over a list of input
addresses. -/
def runFrom (rp : Int) (backing : Nat → Int) (s : SimState) :
    List Nat → Option SimState
  | [] => some s
  | la :: rest =>
    match step rp backing s la with
    | none => none
    | some s' => runFrom rp backing s' rest

/-- A whole run of the program on an input address list. -/
def run (rp : Int) (backing : Nat → Int) (addrs : List Nat) :
    Option SimState :=
  runFrom rp backing initState addrs

/-- The summary block (lines 280-284). The C code computes the two
rates as `count / (1. * total_addresses)` in IEEE double arithmetic;
with `total_addresses = 0` that division is 0/0, a NaN, which has no
rational value and is modelled as `none`. -/
structure Report where
  total : Nat
  faults : Nat
  faultRate : Option ℚ
  hits : Nat
  hitRate : Option ℚ
deriving DecidableEq

/-- Builds the final report from a state. -/
def report (s : SimState) : Report :=
  { total := s.total_addresses,
    faults := s.page_faults,
    faultRate := if s.total_addresses = 0 then none
                 else some ((s.page_faults : ℚ) / (s.total_addresses : ℚ)),
    hits := s.tlb_hits,
    hitRate := if s.total_addresses = 0 then none
               else some ((s.tlb_hits : ℚ) / (s.total_addresses : ℚ)) }

/-- TLB insert history folded through `add_to_tlb`, for comparison with
the specification of the TLB probe. -/
def tlbOf (h : List (Nat × Nat)) : TLBState :=
  h.foldl (fun t e => add_to_tlb t e.1 e.2) initTLB

/-- Modelled from the spec: the TLB probe contract. Scans the most
recent `min(TLB_SIZE, entries_inserted)` entries in insertion order and
returns the frame of the first matching entry, or none. -/
def tlbProbeSpec (h : List (Nat × Nat)) (lp : Nat) : Option Nat :=
  ((h.drop (h.length - 16)).find? (fun e => e.1 == lp)).map (·.2)

/-- Abstraction of the circular FIFO queue as the list of its live
elements from `head` to `tail`. -/
def PageQueue.toList (q : PageQueue) : List Nat :=
  (List.range q.size).map fun k => q.queueArray ((q.head + k) % 64)

/-- Structural well-formedness of the FIFO queue as used by the
program: capacity 64, live region consistent with `head` and `tail`. -/
def QueueWF (q : PageQueue) : Prop :=
  q.numberOfFrames = 64 ∧ q.size ≤ 64 ∧ q.head < 64 ∧ q.tail < 64 ∧
    (q.head + q.size) % 64 = (q.tail + 1) % 64

instance (q : PageQueue) : Decidable (QueueWF q) := by
  unfold QueueWF; infer_instance

/-! ### Bit-level helper lemmas -/

/-- Masking with OFFSET_MASK = 255 keeps a value below PAGE_SIZE. -/
theorem land255_lt (a : Nat) : a &&& 255 < 256 := by
  have h : a &&& 255 ≤ 255 := Nat.and_le_right
  omega

/-- OFFSET_MASK masking is idempotent. -/
theorem land255_idem (a : Nat) : (a &&& 255) &&& 255 = a &&& 255 := by
  have h : (255 : Nat) = 2 ^ 8 - 1 := by norm_num
  rw [h, Nat.and_pow_two_sub_one_eq_mod, Nat.and_pow_two_sub_one_eq_mod]
  omega

/-- The low 8 bits of `(pp << 8) | off` are the low 8 bits of `off`. -/
theorem lor_shl_and255 (pp off : Nat) :
    ((pp <<< 8) ||| off) &&& 255 = off &&& 255 := by
  have h : (255 : Nat) = 2 ^ 8 - 1 := by norm_num
  apply Nat.eq_of_testBit_eq
  intro i
  rw [h]
  simp only [Nat.testBit_and, Nat.testBit_or, Nat.testBit_shiftLeft,
    Nat.testBit_two_pow_sub_one]
  by_cases hi : i < 8
  · have h8 : ¬ (8 ≤ i) := by omega
    simp [hi, h8]
  · simp [hi]

/-- Physical addresses built from a frame below 64 and an offset below
256 stay below FRAMES * PAGE_SIZE = 16384. -/
theorem lor_shl_lt (pp off : Nat) (hpp : pp < 64) (hoff : off < 256) :
    ((pp <<< 8) ||| off) < 16384 := by
  have e8 : (2 : Nat) ^ 8 = 256 := by norm_num
  have e14 : (2 : Nat) ^ 14 = 16384 := by norm_num
  have h1 : pp <<< 8 < 2 ^ 14 := by rw [Nat.shiftLeft_eq, e8, e14]; omega
  have h2 : off < 2 ^ 14 := by rw [e14]; omega
  have h3 := Nat.or_lt_two_pow h1 h2
  rw [e14] at h3
  exact h3

/-! ### LRU scan lemmas -/

/-- Invariant of the scan of `get_least_recently_used_element`: either
no entry seen so far is below the 10000000 seed (and the pair still
holds index 0 and the seed), or the pair holds the first index
attaining the minimum of the entries seen so far. -/
theorem lruScan_spec (u : Nat → Int) (n : Nat) :
    ((lruScan u n).2 = 10000000 ∧ (lruScan u n).1 = 0 ∧
      ∀ j, j < n → (10000000 : Int) ≤ u j) ∨
    ((lruScan u n).2 < 10000000 ∧ (lruScan u n).1 < n ∧
      u (lruScan u n).1 = (lruScan u n).2 ∧
      (∀ j, j < n → (lruScan u n).2 ≤ u j) ∧
      ∀ j, j < (lruScan u n).1 → (lruScan u n).2 < u j) := by
  induction n with
  | zero => exact Or.inl ⟨rfl, rfl, by omega⟩
  | succ n ih =>
    by_cases hn : u n < (lruScan u n).2
    · have hstep : lruScan u (n + 1) = (n, u n) := by
        simp only [lruScan]
        rw [if_pos hn]
      rcases ih with ⟨hv, _, hall⟩ | ⟨hv, _, _, hmin, _⟩
      · refine Or.inr ?_
        rw [hstep]
        refine ⟨by rw [hv] at hn; exact hn, by omega, rfl, ?_, ?_⟩
        · intro j hj
          rcases Nat.lt_succ_iff_lt_or_eq.mp hj with hj' | hj'
          · have := hall j hj'; rw [hv] at hn; simp only; omega
          · subst hj'; simp
        · intro j hj
          have := hall j hj; rw [hv] at hn; simp only; omega
      · refine Or.inr ?_
        rw [hstep]
        refine ⟨by omega, by omega, rfl, ?_, ?_⟩
        · intro j hj
          rcases Nat.lt_succ_iff_lt_or_eq.mp hj with hj' | hj'
          · have := hmin j hj'; simp only; omega
          · subst hj'; simp
        · intro j hj
          have := hmin j hj; simp only; omega
    · have hstep : lruScan u (n + 1) = lruScan u n := by
        simp only [lruScan]
        rw [if_neg hn]
      rcases ih with ⟨hv, hi, hall⟩ | ⟨hv, hi, heq, hmin, hfirst⟩
      · refine Or.inl ?_
        rw [hstep]
        refine ⟨hv, hi, ?_⟩
        intro j hj
        rcases Nat.lt_succ_iff_lt_or_eq.mp hj with hj' | hj'
        · exact hall j hj'
        · subst hj'; rw [hv] at hn; omega
      · refine Or.inr ?_
        rw [hstep]
        refine ⟨hv, by omega, heq, ?_, hfirst⟩
        intro j hj
        rcases Nat.lt_succ_iff_lt_or_eq.mp hj with hj' | hj'
        · exact hmin j hj'
        · subst hj'; omega

/-- The LRU victim index is always a valid frame number. -/
theorem getLRU_lt (u : Nat → Int) : get_least_recently_used_element u < 64 := by
  unfold get_least_recently_used_element
  rcases lruScan_spec u 64 with ⟨_, hi, _⟩ | ⟨_, hi, _⟩
  · omega
  · exact hi

/-- When some frame has a timestamp below the 10000000 seed, the scan
returns the frame with the minimal timestamp, ties broken by the
lowest index. -/
theorem getLRU_min (u : Nat → Int) (h : ∃ i, i < 64 ∧ u i < 10000000) :
    get_least_recently_used_element u < 64 ∧
    ∀ j, j < 64 → u (get_least_recently_used_element u) ≤ u j ∧
      (u j = u (get_least_recently_used_element u) →
        get_least_recently_used_element u ≤ j) := by
  unfold get_least_recently_used_element
  rcases lruScan_spec u 64 with ⟨_, _, hall⟩ | ⟨_, hi, heq, hmin, hfirst⟩
  · obtain ⟨i, hi, hu⟩ := h
    have := hall i hi
    omega
  · refine ⟨hi, fun j hj => ⟨by rw [heq]; exact hmin j hj, ?_⟩⟩
    intro hje
    by_contra hlt
    have := hfirst j (by omega)
    omega

/-- When every frame timestamp is at least the 10000000 seed, the scan
degenerates and returns frame 0 regardless of recency. -/
theorem getLRU_high (u : Nat → Int)
    (h : ∀ i, i < 64 → (10000000 : Int) ≤ u i) :
    get_least_recently_used_element u = 0 := by
  unfold get_least_recently_used_element
  rcases lruScan_spec u 64 with ⟨_, hi, _⟩ | ⟨hv, hi, heq, _, _⟩
  · exact hi
  · have := h _ hi
    omega

/-! ### clearOwner lemmas -/

/-- `clearOwner` either leaves an entry unchanged or clears it. -/
theorem clearOwner_cases (pt : Nat → Option Nat) (f p : Nat) :
    clearOwner pt f p = pt p ∨ clearOwner pt f p = none := by
  unfold clearOwner
  rcases hfind : (List.range 256).find? (fun k => decide (pt k = some f)) with _ | k
  · exact Or.inl rfl
  · by_cases hp : p = k
    · subst hp; exact Or.inr (by simp)
    · exact Or.inl (by simp [hp])

/-- A non-cleared entry of `clearOwner` was already in the table. -/
theorem clearOwner_sub (pt : Nat → Option Nat) (f p g : Nat)
    (h : clearOwner pt f p = some g) : pt p = some g := by
  rcases clearOwner_cases pt f p with hc | hc
  · rw [← hc]; exact h
  · rw [hc] at h; exact absurd h (by simp)

/-- After `clearOwner pt f`, no logical page owns frame `f` provided
the table was injective on bound entries and bound only below 256. -/
theorem clearOwner_no_owner (pt : Nat → Option Nat) (f : Nat)
    (hinj : ∀ p1 p2 g, pt p1 = some g → pt p2 = some g → p1 = p2)
    (hrange : ∀ p, 256 ≤ p → pt p = none) :
    ∀ p, clearOwner pt f p ≠ some f := by
  intro p
  unfold clearOwner
  rcases hfind : (List.range 256).find? (fun k => decide (pt k = some f)) with _ | k
  · dsimp only
    intro hp
    by_cases h256 : p < 256
    · have hmem : p ∈ List.range 256 := List.mem_range.mpr h256
      have hnone := List.find?_eq_none.mp hfind p hmem
      simp at hnone
      exact hnone hp
    · rw [hrange p (by omega)] at hp
      exact absurd hp (by simp)
  · have hk := List.find?_some hfind
    simp at hk
    dsimp only
    by_cases hp : p = k
    · subst hp; simp
    · rw [if_neg hp]
      intro hcontra
      exact hp (hinj p k f hcontra hk)

/-! ### search_tlb lemmas -/

/-- Every value returned by the TLB scan is the physical field of some
TLB line. -/
theorem searchAux_mem (t : Nat → TLBEntry) (lp : Nat) :
    ∀ fuel i pp, searchAux t lp i fuel = some pp →
      ∃ j, pp = (t j).physical := by
  intro fuel
  induction fuel with
  | zero => intro i pp h; simp [searchAux] at h
  | succ f ih =>
    intro i pp h
    simp only [searchAux] at h
    split at h
    · exact ⟨i % 16, (Option.some.inj h).symm⟩
    · exact ih _ _ h

/-- Every value returned by `search_tlb` is the physical field of some
TLB line. -/
theorem search_tlb_mem (t : TLBState) (lp pp : Nat)
    (h : search_tlb t lp = some pp) : ∃ j, pp = (t.tlb j).physical := by
  unfold search_tlb at h
  exact searchAux_mem t.tlb _ _ _ _ h

/-! ### Circular queue lemmas -/

/-- Capacity is untouched by `enqueue`. -/
theorem enqueue_numberOfFrames (q : PageQueue) (x : Nat) :
    (enqueue q x).numberOfFrames = q.numberOfFrames := by
  unfold enqueue
  split <;> rfl

/-- Size evolution of `enqueue` at capacity 64. -/
theorem enqueue_size (q : PageQueue) (x : Nat) (hf : q.numberOfFrames = 64) :
    (enqueue q x).size = if q.size = 64 then q.size else q.size + 1 := by
  unfold enqueue
  rw [hf]
  split <;> simp_all

/-- All cells stay below 64 when enqueuing a frame number below 64. -/
theorem enqueue_cells (q : PageQueue) (x : Nat)
    (hc : ∀ j, q.queueArray j < 64) (hx : x < 64) :
    ∀ j, (enqueue q x).queueArray j < 64 := by
  unfold enqueue
  split
  · exact hc
  · intro j
    dsimp only
    split
    · exact hx
    · exact hc j

/-- On a nonempty queue, `dequeue` pops the cell at `head`. -/
theorem dequeue_pos (q : PageQueue) (h : q.size ≠ 0) :
    dequeue q = (some (q.queueArray q.head),
      { q with head := (q.head + 1) % q.numberOfFrames, size := q.size - 1 }) := by
  unfold dequeue
  rw [if_neg h]

/-- Well-formedness is preserved and the list abstraction of `enqueue`
is an append, a no-op exactly at capacity. -/
theorem enqueue_toList (q : PageQueue) (x : Nat) (hwf : QueueWF q) :
    QueueWF (enqueue q x) ∧
    (enqueue q x).toList =
      if q.size = 64 then q.toList else q.toList ++ [x] := by
  obtain ⟨h1, h2, h3, h4, h5⟩ := hwf
  by_cases hs : q.size = 64
  · have he : enqueue q x = q := by
      unfold enqueue
      rw [if_pos (by omega)]
    rw [he, if_pos hs]
    exact ⟨⟨h1, h2, h3, h4, h5⟩, rfl⟩
  · have he : enqueue q x =
        { q with tail := (q.tail + 1) % 64,
                 queueArray := fun j =>
                   if j = (q.tail + 1) % 64 then x else q.queueArray j,
                 size := q.size + 1 } := by
      unfold enqueue
      rw [h1, if_neg (by omega)]
    constructor
    · rw [he]
      unfold QueueWF
      dsimp only
      exact ⟨h1, by omega, h3, by omega, by omega⟩
    · rw [he, if_neg hs]
      unfold PageQueue.toList
      dsimp only
      rw [List.range_succ, List.map_append]
      congr 1
      · apply List.map_congr_left
        intro k hk
        rw [List.mem_range] at hk
        rw [if_neg (by omega)]
      · dsimp only [List.map]
        rw [if_pos (by omega)]

/-- On a nonempty well-formed queue, `dequeue` returns the head of the
list abstraction and leaves its tail. -/
theorem dequeue_toList (q : PageQueue) (hwf : QueueWF q) (h : 0 < q.size) :
    QueueWF (dequeue q).2 ∧
    (dequeue q).1 = q.toList.head? ∧
    (dequeue q).2.toList = q.toList.tail := by
  obtain ⟨h1, h2, h3, h4, h5⟩ := hwf
  obtain ⟨m, hm⟩ : ∃ m, q.size = m + 1 := ⟨q.size - 1, by omega⟩
  have hd : dequeue q = (some (q.queueArray q.head),
      { q with head := (q.head + 1) % 64, size := m }) := by
    rw [dequeue_pos q (by omega), h1, hm]
    simp
  refine ⟨?_, ?_, ?_⟩
  · rw [hd]
    unfold QueueWF
    dsimp only
    exact ⟨h1, by omega, by omega, h4, by omega⟩
  · rw [hd]
    unfold PageQueue.toList
    rw [hm, List.range_succ_eq_map]
    dsimp only [List.map, List.head?]
    rw [Nat.add_zero, Nat.mod_eq_of_lt h3]
  · rw [hd]
    unfold PageQueue.toList
    rw [hm, List.range_succ_eq_map]
    dsimp only [List.map, List.tail]
    rw [List.map_map]
    apply List.map_congr_left
    intro k hk
    simp only [Function.comp_apply]
    congr 1
    omega

/-! ### TLB refinement lemmas -/

/-- Folding one more insert into the TLB history. -/
theorem tlbOf_snoc (h : List (Nat × Nat)) (e : Nat × Nat) :
    tlbOf (h ++ [e]) = add_to_tlb (tlbOf h) e.1 e.2 := by
  unfold tlbOf
  rw [List.foldl_append]
  rfl

/-- The insert counter equals the history length. -/
theorem tlbOf_tlbindex (h : List (Nat × Nat)) :
    (tlbOf h).tlbindex = h.length := by
  induction h using List.reverseRecOn with
  | nil => rfl
  | append_singleton h e ih =>
    rw [tlbOf_snoc]
    simp [add_to_tlb, ih]

/-- A slot of the folded TLB whose index can still be reached by the
scan window holds exactly the corresponding history insert (truncated
to bytes). -/
theorem tlbOf_slot (h : List (Nat × Nat)) :
    ∀ i, i < h.length → h.length ≤ i + 16 →
      (tlbOf h).tlb (i % 16) =
        ⟨(h.getD i (0, 0)).1 % 256, (h.getD i (0, 0)).2 % 256⟩ := by
  induction h using List.reverseRecOn with
  | nil => intro i hi _; simp at hi
  | append_singleton h e ih =>
    intro i hi hw
    rw [List.length_append, List.length_singleton] at hi hw
    rw [tlbOf_snoc]
    by_cases hieq : i = h.length
    · subst hieq
      simp only [add_to_tlb]
      rw [tlbOf_tlbindex, if_pos rfl]
      rw [List.getD_append_right _ _ _ _ (le_refl _), Nat.sub_self]
      rfl
    · have hi' : i < h.length := by omega
      simp only [add_to_tlb]
      rw [tlbOf_tlbindex, if_neg (by omega)]
      rw [List.getD_append _ _ _ _ hi']
      exact ih i hi' (by omega)

/-- Dropping at a valid index exposes the `getD` head. -/
theorem drop_eq_getD_cons (h : List (Nat × Nat)) (i : Nat)
    (hi : i < h.length) :
    h.drop i = h.getD i (0, 0) :: h.drop (i + 1) := by
  rw [List.drop_eq_getElem_cons hi, List.getD_eq_getElem h (0, 0) hi]

/-- The TLB scan over slots whose contents agree with the history
window computes the first match of that window, oldest first. -/
theorem searchAux_window (t : Nat → TLBEntry) (lp : Nat)
    (h : List (Nat × Nat)) (hent : ∀ e ∈ h, e.1 < 256 ∧ e.2 < 256)
    (hlp : lp < 256) :
    ∀ fuel i, i + fuel = h.length → fuel ≤ 16 →
      (∀ j, i ≤ j → j < h.length →
        t (j % 16) = ⟨(h.getD j (0, 0)).1 % 256, (h.getD j (0, 0)).2 % 256⟩) →
      searchAux t lp i fuel =
        ((h.drop i).find? (fun e => e.1 == lp)).map (·.2) := by
  intro fuel
  induction fuel with
  | zero =>
    intro i hif _ _
    have hieq : i = h.length := by omega
    rw [hieq, List.drop_length]
    rfl
  | succ f ihf =>
    intro i hif hfl hslots
    have hi : i < h.length := by omega
    have hmem : h.getD i (0, 0) ∈ h := by
      rw [List.getD_eq_getElem h (0, 0) hi]
      exact List.getElem_mem hi
    obtain ⟨he1, he2⟩ := hent _ hmem
    rw [drop_eq_getD_cons h i hi, List.find?_cons]
    simp only [searchAux]
    rw [hslots i (le_refl i) hi]
    dsimp only
    rw [Nat.mod_eq_of_lt he1, Nat.mod_eq_of_lt he2]
    by_cases hcase : (h.getD i (0, 0)).1 = lp
    · have hb : ((h.getD i (0, 0)).1 == lp) = true := by simpa using hcase
      rw [hb, if_pos hcase]
      rfl
    · have hb : ((h.getD i (0, 0)).1 == lp) = false := by simpa using hcase
      rw [hb, if_neg hcase]
      exact ihf (i + 1) (by omega) (by omega)
        (fun j hj hjl => hslots j (by omega) hjl)

/-! ### The run invariant -/

/-- Facts holding of every printed line. -/
def OutputOK (o : Output) : Prop :=
  o.pp < 64 ∧ o.offset = o.la &&& 255 ∧ o.pa = (o.pp <<< 8) ||| o.offset ∧
    o.pa &&& 255 = o.la &&& 255 ∧ o.pa < 16384

/-- The line emitted for a translation through frame `pp` is in range
and preserves the offset bits. -/
theorem outputOK_new (la pp : Nat) (v : Int) (hpp : pp < 64) :
    OutputOK ⟨la, (pp <<< 8) ||| (la &&& 255), v, pp, la &&& 255⟩ := by
  refine ⟨hpp, rfl, rfl, ?_, lor_shl_lt _ _ hpp (land255_lt la)⟩
  rw [lor_shl_and255, land255_idem]

/-- Invariant of the translation loop, preserved by every `step`. -/
structure SimInv (rp : Int) (backing : Nat → Int) (s : SimState) : Prop where
  timeEq : s.time_count = s.total_addresses
  faultsLe : s.page_faults ≤ s.total_addresses
  freePage : s.free_page = min s.page_faults 64
  ptRange : ∀ p, 256 ≤ p → s.pagetable p = none
  ptFrames : ∀ p f, s.pagetable p = some f → f < 64
  ptInj : ∀ p1 p2 f, s.pagetable p1 = some f → s.pagetable p2 = some f →
    p1 = p2
  tlbLog : ∀ j, (s.tlbState.tlb j).logical < 256
  tlbPhys : ∀ j, (s.tlbState.tlb j).physical < 64
  usagesLe : ∀ f, s.recentUsages f ≤ (s.time_count : Int)
  qFrames : s.queue.numberOfFrames = 64
  qCells : ∀ j, s.queue.queueArray j < 64
  qSize : rp = 0 →
    s.queue.size = min 64 (s.total_addresses - (s.page_faults - 64))
  memPT : ∀ p f, s.pagetable p = some f → ∀ o, o < 256 →
    s.main_memory (f * 256 + o) = backing (p * 256 + o)
  evLen : s.faultEvents.length = s.page_faults
  evEarly : ∀ i, i < s.faultEvents.length → i < 64 →
    s.faultEvents.getD i (0, false) = (i, false)
  evLate : ∀ i, i < s.faultEvents.length → 64 ≤ i →
    (s.faultEvents.getD i (0, false)).2 = true
  outs : ∀ out ∈ s.outputs, OutputOK out

/-- The initial state satisfies the invariant. -/
theorem inv_init (rp : Int) (backing : Nat → Int) :
    SimInv rp backing initState := by
  constructor <;> intros <;> simp_all [initState, initTLB, initQueue]

/-- Closing a step: after the policy update of lines 265-272 and the
emission of lines 274-277, the invariant holds of the new state,
provided the mid-state satisfies it up to the pending policy update. -/
theorem inv_finish (rp : Int) (backing : Nat → Int) (m : SimState)
    (la pp : Nat) (hpp : pp < 64)
    (timeEq : m.time_count = m.total_addresses)
    (faultsLe : m.page_faults ≤ m.total_addresses)
    (freePage : m.free_page = min m.page_faults 64)
    (ptRange : ∀ p, 256 ≤ p → m.pagetable p = none)
    (ptFrames : ∀ p f, m.pagetable p = some f → f < 64)
    (ptInj : ∀ p1 p2 f, m.pagetable p1 = some f → m.pagetable p2 = some f →
      p1 = p2)
    (tlbLog : ∀ j, (m.tlbState.tlb j).logical < 256)
    (tlbPhys : ∀ j, (m.tlbState.tlb j).physical < 64)
    (usagesLe : ∀ f, m.recentUsages f ≤ (m.time_count : Int))
    (qFrames : m.queue.numberOfFrames = 64)
    (qCells : ∀ j, m.queue.queueArray j < 64)
    (qSizeStep : rp = 0 →
      (if m.queue.size = 64 then m.queue.size else m.queue.size + 1) =
        min 64 (m.total_addresses - (m.page_faults - 64)))
    (memPT : ∀ p f, m.pagetable p = some f → ∀ o, o < 256 →
      m.main_memory (f * 256 + o) = backing (p * 256 + o))
    (evLen : m.faultEvents.length = m.page_faults)
    (evEarly : ∀ i, i < m.faultEvents.length → i < 64 →
      m.faultEvents.getD i (0, false) = (i, false))
    (evLate : ∀ i, i < m.faultEvents.length → 64 ≤ i →
      (m.faultEvents.getD i (0, false)).2 = true)
    (outs : ∀ out ∈ m.outputs, OutputOK out) :
    SimInv rp backing (emit (stepPolicy rp m pp) la pp (la &&& 255)) := by
  by_cases hrp : rp = 0
  · have he : emit (stepPolicy rp m pp) la pp (la &&& 255) =
        { m with queue := enqueue m.queue pp,
                 outputs := m.outputs ++
                   [⟨la, (pp <<< 8) ||| (la &&& 255),
                     m.main_memory (pp * 256 + (la &&& 255)), pp,
                     la &&& 255⟩] } := by
      unfold emit stepPolicy
      rw [if_pos hrp]
    rw [he]
    refine ⟨timeEq, faultsLe, freePage, ptRange, ptFrames, ptInj, tlbLog,
      tlbPhys, usagesLe, ?_, ?_, ?_, memPT, evLen, evEarly, evLate, ?_⟩
    · dsimp only
      rw [enqueue_numberOfFrames]
      exact qFrames
    · exact enqueue_cells m.queue pp qCells hpp
    · intro h0
      dsimp only
      rw [enqueue_size m.queue pp qFrames]
      exact qSizeStep h0
    · intro out hout
      dsimp only at hout
      rcases List.mem_append.mp hout with hold | hnew
      · exact outs out hold
      · rw [List.mem_singleton.mp hnew]
        exact outputOK_new la pp _ hpp
  · have he : emit (stepPolicy rp m pp) la pp (la &&& 255) =
        { m with recentUsages := fun f =>
                   if f = pp then (m.time_count : Int) else m.recentUsages f,
                 outputs := m.outputs ++
                   [⟨la, (pp <<< 8) ||| (la &&& 255),
                     m.main_memory (pp * 256 + (la &&& 255)), pp,
                     la &&& 255⟩] } := by
      unfold emit stepPolicy
      rw [if_neg hrp]
    rw [he]
    refine ⟨timeEq, faultsLe, freePage, ptRange, ptFrames, ptInj, tlbLog,
      tlbPhys, ?_, qFrames, qCells, ?_, memPT, evLen, evEarly, evLate, ?_⟩
    · intro f
      dsimp only
      by_cases hf : f = pp
      · rw [if_pos hf]
      · rw [if_neg hf]
        exact usagesLe f
    · intro h0
      exact absurd h0 hrp
    · intro out hout
      dsimp only at hout
      rcases List.mem_append.mp hout with hold | hnew
      · exact outs out hold
      · rw [List.mem_singleton.mp hnew]
        exact outputOK_new la pp _ hpp

/-- Flattened form of `loadInto`. -/
theorem loadInto_eq (backing : Nat → Int) (lp pp : Nat) (isVictim : Bool)
    (B : SimState) :
    loadInto backing lp pp isVictim B =
      { B with
        main_memory := copyPage backing lp pp B.main_memory,
        pagetable := fun k =>
          if k = lp then some pp else clearOwner B.pagetable pp k,
        tlbState := add_to_tlb B.tlbState lp pp,
        faultEvents := B.faultEvents ++ [(pp, isVictim)] } := rfl

/-- Closing a fault step: the invariant-shaped facts of `inv_finish`
hold after `loadInto`, given they hold of the pre-load mid-state. -/
theorem inv_load (rp : Int) (backing : Nat → Int) (B : SimState)
    (la lp pp : Nat) (isVictim : Bool) (hlp : lp < 256) (hpp : pp < 64)
    (timeEq : B.time_count = B.total_addresses)
    (faultsLe : B.page_faults ≤ B.total_addresses)
    (freePage : B.free_page = min B.page_faults 64)
    (ptRange : ∀ p, 256 ≤ p → B.pagetable p = none)
    (ptFrames : ∀ p f, B.pagetable p = some f → f < 64)
    (ptInj : ∀ p1 p2 f, B.pagetable p1 = some f → B.pagetable p2 = some f →
      p1 = p2)
    (tlbLog : ∀ j, (B.tlbState.tlb j).logical < 256)
    (tlbPhys : ∀ j, (B.tlbState.tlb j).physical < 64)
    (usagesLe : ∀ f, B.recentUsages f ≤ (B.time_count : Int))
    (qFrames : B.queue.numberOfFrames = 64)
    (qCells : ∀ j, B.queue.queueArray j < 64)
    (qSizeStep : rp = 0 →
      (if B.queue.size = 64 then B.queue.size else B.queue.size + 1) =
        min 64 (B.total_addresses - (B.page_faults - 64)))
    (memPT : ∀ p f, B.pagetable p = some f → ∀ o, o < 256 →
      B.main_memory (f * 256 + o) = backing (p * 256 + o))
    (evLen : B.faultEvents.length + 1 = B.page_faults)
    (evEarly : ∀ i, i < B.faultEvents.length → i < 64 →
      B.faultEvents.getD i (0, false) = (i, false))
    (evLate : ∀ i, i < B.faultEvents.length → 64 ≤ i →
      (B.faultEvents.getD i (0, false)).2 = true)
    (evNew : (isVictim = false → B.faultEvents.length = pp ∧
        B.faultEvents.length < 64) ∧
      (isVictim = true → 64 ≤ B.faultEvents.length))
    (outs : ∀ out ∈ B.outputs, OutputOK out) :
    SimInv rp backing
      (emit (stepPolicy rp (loadInto backing lp pp isVictim B) pp) la pp
        (la &&& 255)) := by
  rw [loadInto_eq]
  have hNoOwner := clearOwner_no_owner B.pagetable pp ptInj ptRange
  apply inv_finish <;> dsimp only
  · exact hpp
  · exact timeEq
  · exact faultsLe
  · exact freePage
  · -- ptRange
    intro p h256
    rw [if_neg (by omega)]
    rcases clearOwner_cases B.pagetable pp p with hc | hc
    · rw [hc]; exact ptRange p h256
    · exact hc
  · -- ptFrames
    intro p f h
    by_cases hple : p = lp
    · rw [if_pos hple] at h
      injection h with h'
      omega
    · rw [if_neg hple] at h
      exact ptFrames p f (clearOwner_sub _ _ _ _ h)
  · -- ptInj
    intro p1 p2 f h1 h2
    by_cases hp1 : p1 = lp <;> by_cases hp2 : p2 = lp
    · rw [hp1, hp2]
    · rw [if_pos hp1] at h1
      rw [if_neg hp2] at h2
      have hfpp : f = pp := by injection h1 with h1'; omega
      rw [hfpp] at h2
      exact absurd h2 (hNoOwner p2)
    · rw [if_neg hp1] at h1
      rw [if_pos hp2] at h2
      have hfpp : f = pp := by injection h2 with h2'; omega
      rw [hfpp] at h1
      exact absurd h1 (hNoOwner p1)
    · rw [if_neg hp1] at h1
      rw [if_neg hp2] at h2
      exact ptInj p1 p2 f (clearOwner_sub _ _ _ _ h1) (clearOwner_sub _ _ _ _ h2)
  · -- tlbLog
    intro j
    unfold add_to_tlb
    dsimp only
    by_cases hj : j = B.tlbState.tlbindex % 16
    · rw [if_pos hj]
      exact Nat.mod_lt _ (by norm_num)
    · rw [if_neg hj]
      exact tlbLog j
  · -- tlbPhys
    intro j
    unfold add_to_tlb
    dsimp only
    by_cases hj : j = B.tlbState.tlbindex % 16
    · rw [if_pos hj]
      dsimp only
      omega
    · rw [if_neg hj]
      exact tlbPhys j
  · exact usagesLe
  · exact qFrames
  · exact qCells
  · exact qSizeStep
  · -- memPT
    intro p f h o ho
    by_cases hple : p = lp
    · rw [if_pos hple] at h
      have hfpp : f = pp := by injection h with h'; omega
      subst hfpp hple
      unfold copyPage
      rw [if_pos (by omega)]
      congr 1
      omega
    · rw [if_neg hple] at h
      have hBpt : B.pagetable p = some f := clearOwner_sub _ _ _ _ h
      have hfpp : f ≠ pp := by
        intro hc
        rw [hc] at h
        exact hNoOwner p h
      unfold copyPage
      rw [if_neg (by omega)]
      exact memPT p f hBpt o ho
  · -- evLen
    rw [List.length_append]
    simpa using evLen
  · -- evEarly
    intro i hi h64
    rw [List.length_append, List.length_singleton] at hi
    by_cases hiB : i < B.faultEvents.length
    · rw [List.getD_append _ _ _ _ hiB]
      exact evEarly i hiB h64
    · have hieq : i = B.faultEvents.length := by omega
      rw [List.getD_append_right _ _ _ _ (by omega)]
      rw [hieq, Nat.sub_self]
      cases isVictim with
      | false =>
        obtain ⟨hppi, _⟩ := evNew.1 rfl
        simp [hppi]
      | true =>
        have := evNew.2 rfl
        omega
  · -- evLate
    intro i hi h64
    rw [List.length_append, List.length_singleton] at hi
    by_cases hiB : i < B.faultEvents.length
    · rw [List.getD_append _ _ _ _ hiB]
      exact evLate i hiB h64
    · have hieq : i = B.faultEvents.length := by omega
      rw [List.getD_append_right _ _ _ _ (by omega)]
      rw [hieq, Nat.sub_self]
      cases isVictim with
      | false =>
        obtain ⟨_, hlt⟩ := evNew.1 rfl
        omega
      | true => rfl
  · exact outs

/-- Byte bound for the logical fields after a TLB insert. -/
theorem addTLB_log (t : TLBState) (l p : Nat)
    (old : ∀ j, (t.tlb j).logical < 256) :
    ∀ j, ((add_to_tlb t l p).tlb j).logical < 256 := by
  intro j
  unfold add_to_tlb
  dsimp only
  by_cases hj : j = t.tlbindex % 16
  · rw [if_pos hj]
    exact Nat.mod_lt _ (by norm_num)
  · rw [if_neg hj]
    exact old j

/-- Frame bound for the physical fields after a TLB insert of a frame
below 64. -/
theorem addTLB_phys (t : TLBState) (l p : Nat) (hp : p < 64)
    (old : ∀ j, (t.tlb j).physical < 64) :
    ∀ j, ((add_to_tlb t l p).tlb j).physical < 64 := by
  intro j
  unfold add_to_tlb
  dsimp only
  by_cases hj : j = t.tlbindex % 16
  · rw [if_pos hj]
    dsimp only
    omega
  · rw [if_neg hj]
    exact old j

/-- Shape of a step that hits in the TLB. -/
theorem step_eq_hit (rp : Int) (b : Nat → Int) (s : SimState) (la pp : Nat)
    (hs : search_tlb s.tlbState ((la >>> 8) &&& 255) = some pp) :
    step rp b s la = some (emit (stepPolicy rp
      { s with time_count := s.time_count + 1,
               total_addresses := s.total_addresses + 1,
               tlb_hits := s.tlb_hits + 1 } pp) la pp (la &&& 255)) := by
  unfold step
  dsimp only
  rw [hs]

/-- Shape of a step that misses in the TLB but hits in the page
table. -/
theorem step_eq_ptHit (rp : Int) (b : Nat → Int) (s : SimState) (la pp : Nat)
    (hs : search_tlb s.tlbState ((la >>> 8) &&& 255) = none)
    (hpt : s.pagetable ((la >>> 8) &&& 255) = some pp) :
    step rp b s la = some (emit (stepPolicy rp
      (SimState.addTLB
        { s with time_count := s.time_count + 1,
                 total_addresses := s.total_addresses + 1 }
        ((la >>> 8) &&& 255) pp)
      pp) la pp (la &&& 255)) := by
  unfold step
  dsimp only
  rw [hs, hpt]

/-- Shape of a faulting step while a free frame remains. -/
theorem step_eq_fault_free (rp : Int) (b : Nat → Int) (s : SimState)
    (la : Nat)
    (hs : search_tlb s.tlbState ((la >>> 8) &&& 255) = none)
    (hpt : s.pagetable ((la >>> 8) &&& 255) = none)
    (hfree : s.free_page < 64) :
    step rp b s la = some (emit (stepPolicy rp
      (loadInto b ((la >>> 8) &&& 255) s.free_page false
        { s with time_count := s.time_count + 1,
                 total_addresses := s.total_addresses + 1,
                 page_faults := s.page_faults + 1,
                 free_page := s.free_page + 1 })
      s.free_page) la s.free_page (la &&& 255)) := by
  unfold step handleFault
  dsimp only
  rw [hs, hpt, if_pos hfree]

/-- Shape of a faulting step with no free frame under FIFO. -/
theorem step_eq_fault_fifo (b : Nat → Int) (s : SimState) (la : Nat)
    (hs : search_tlb s.tlbState ((la >>> 8) &&& 255) = none)
    (hpt : s.pagetable ((la >>> 8) &&& 255) = none)
    (hfree : ¬ s.free_page < 64) (hq : s.queue.size ≠ 0) :
    step 0 b s la = some (emit (stepPolicy 0
      (loadInto b ((la >>> 8) &&& 255) (s.queue.queueArray s.queue.head) true
        { s with time_count := s.time_count + 1,
                 total_addresses := s.total_addresses + 1,
                 page_faults := s.page_faults + 1,
                 queue := { s.queue with
                            head := (s.queue.head + 1) % s.queue.numberOfFrames,
                            size := s.queue.size - 1 } })
      (s.queue.queueArray s.queue.head)) la
      (s.queue.queueArray s.queue.head) (la &&& 255)) := by
  unfold step handleFault
  dsimp only
  rw [hs, hpt, if_neg hfree, if_pos rfl, dequeue_pos _ hq]

/-- Shape of a faulting step with no free frame under LRU. -/
theorem step_eq_fault_lru (rp : Int) (b : Nat → Int) (s : SimState)
    (la : Nat)
    (hs : search_tlb s.tlbState ((la >>> 8) &&& 255) = none)
    (hpt : s.pagetable ((la >>> 8) &&& 255) = none)
    (hfree : ¬ s.free_page < 64) (hrp : rp ≠ 0) :
    step rp b s la = some (emit (stepPolicy rp
      (loadInto b ((la >>> 8) &&& 255)
        (get_least_recently_used_element s.recentUsages) true
        { s with time_count := s.time_count + 1,
                 total_addresses := s.total_addresses + 1,
                 page_faults := s.page_faults + 1 })
      (get_least_recently_used_element s.recentUsages)) la
      (get_least_recently_used_element s.recentUsages) (la &&& 255)) := by
  unfold step handleFault
  dsimp only
  rw [hs, hpt, if_neg hfree, if_neg hrp]

/-- Every step from an invariant state succeeds (in particular the FIFO
dequeue never sees an empty queue) and preserves the invariant. -/
theorem step_some_inv (rp : Int) (b : Nat → Int) (s : SimState) (la : Nat)
    (h : SimInv rp b s) :
    ∃ s', step rp b s la = some s' ∧ SimInv rp b s' := by
  have hlplt : (la >>> 8) &&& 255 < 256 := land255_lt _
  rcases hsearch : search_tlb s.tlbState ((la >>> 8) &&& 255) with _ | pp
  · rcases hpt : s.pagetable ((la >>> 8) &&& 255) with _ | pp
    · by_cases hfree : s.free_page < 64
      · refine ⟨_, step_eq_fault_free rp b s la hsearch hpt hfree, ?_⟩
        apply inv_load
        · exact hlplt
        · exact hfree
        · dsimp only; rw [h.timeEq]
        · dsimp only; have := h.faultsLe; omega
        · dsimp only; have h1 := h.freePage; omega
        · exact h.ptRange
        · exact h.ptFrames
        · exact h.ptInj
        · exact h.tlbLog
        · exact h.tlbPhys
        · intro f; have h1 := h.usagesLe f; dsimp only; omega
        · exact h.qFrames
        · exact h.qCells
        · intro h0
          have h1 := h.qSize h0
          have h2 := h.faultsLe
          have h3 := h.freePage
          dsimp only
          split <;> omega
        · exact h.memPT
        · dsimp only; rw [h.evLen]
        · exact h.evEarly
        · exact h.evLate
        · constructor
          · intro _
            have h1 := h.evLen
            have h2 := h.freePage
            dsimp only
            omega
          · intro hc
            simp at hc
        · exact h.outs
      · have h2 := h.faultsLe
        have h3 := h.freePage
        have hf64 : 64 ≤ s.page_faults := by omega
        by_cases hrp : rp = 0
        · subst hrp
          have h1 := h.qSize rfl
          have hsz : s.queue.size = 64 := by omega
          have hq : s.queue.size ≠ 0 := by omega
          refine ⟨_, step_eq_fault_fifo b s la hsearch hpt hfree hq, ?_⟩
          apply inv_load
          · exact hlplt
          · exact h.qCells _
          · dsimp only; rw [h.timeEq]
          · dsimp only; omega
          · dsimp only; omega
          · exact h.ptRange
          · exact h.ptFrames
          · exact h.ptInj
          · exact h.tlbLog
          · exact h.tlbPhys
          · intro f; have h4 := h.usagesLe f; dsimp only; omega
          · dsimp only; exact h.qFrames
          · exact h.qCells
          · intro _
            dsimp only
            split <;> omega
          · exact h.memPT
          · dsimp only; rw [h.evLen]
          · exact h.evEarly
          · exact h.evLate
          · constructor
            · intro hc
              simp at hc
            · intro _
              have h4 := h.evLen
              dsimp only
              omega
          · exact h.outs
        · refine ⟨_, step_eq_fault_lru rp b s la hsearch hpt hfree hrp, ?_⟩
          apply inv_load
          · exact hlplt
          · exact getLRU_lt _
          · dsimp only; rw [h.timeEq]
          · dsimp only; omega
          · dsimp only; omega
          · exact h.ptRange
          · exact h.ptFrames
          · exact h.ptInj
          · exact h.tlbLog
          · exact h.tlbPhys
          · intro f; have h4 := h.usagesLe f; dsimp only; omega
          · exact h.qFrames
          · exact h.qCells
          · intro h0
            exact absurd h0 hrp
          · exact h.memPT
          · dsimp only; rw [h.evLen]
          · exact h.evEarly
          · exact h.evLate
          · constructor
            · intro hc
              simp at hc
            · intro _
              have h4 := h.evLen
              dsimp only
              omega
          · exact h.outs
    · refine ⟨_, step_eq_ptHit rp b s la pp hsearch hpt, ?_⟩
      have hpp : pp < 64 := h.ptFrames _ _ hpt
      apply inv_finish
      · exact hpp
      · dsimp only [SimState.addTLB]; rw [h.timeEq]
      · dsimp only [SimState.addTLB]; have := h.faultsLe; omega
      · dsimp only [SimState.addTLB]; exact h.freePage
      · exact h.ptRange
      · exact h.ptFrames
      · exact h.ptInj
      · exact addTLB_log _ _ _ h.tlbLog
      · exact addTLB_phys _ _ _ hpp h.tlbPhys
      · intro f; have h1 := h.usagesLe f; dsimp only [SimState.addTLB]; omega
      · exact h.qFrames
      · exact h.qCells
      · intro h0
        have h1 := h.qSize h0
        have h2 := h.faultsLe
        dsimp only [SimState.addTLB]
        split <;> omega
      · exact h.memPT
      · dsimp only [SimState.addTLB]; exact h.evLen
      · exact h.evEarly
      · exact h.evLate
      · exact h.outs
  · refine ⟨_, step_eq_hit rp b s la pp hsearch, ?_⟩
    have hpp : pp < 64 := by
      obtain ⟨j, hj⟩ := search_tlb_mem _ _ _ hsearch
      rw [hj]
      exact h.tlbPhys j
    apply inv_finish
    · exact hpp
    · dsimp only; rw [h.timeEq]
    · dsimp only; have := h.faultsLe; omega
    · dsimp only; exact h.freePage
    · exact h.ptRange
    · exact h.ptFrames
    · exact h.ptInj
    · exact h.tlbLog
    · exact h.tlbPhys
    · intro f; have h1 := h.usagesLe f; dsimp only; omega
    · exact h.qFrames
    · exact h.qCells
    · intro h0
      have h1 := h.qSize h0
      have h2 := h.faultsLe
      dsimp only
      split <;> omega
    · exact h.memPT
    · dsimp only; exact h.evLen
    · exact h.evEarly
    · exact h.evLate
    · exact h.outs

/-- Running from an invariant state succeeds and lands in an invariant
state. -/
theorem runFrom_some_inv (rp : Int) (b : Nat → Int) :
    ∀ (addrs : List Nat) (s : SimState), SimInv rp b s →
      ∃ s', runFrom rp b s addrs = some s' ∧ SimInv rp b s' := by
  intro addrs
  induction addrs with
  | nil => intro s hs; exact ⟨s, rfl, hs⟩
  | cons la rest ih =>
    intro s hs
    obtain ⟨s1, hstep, hinv1⟩ := step_some_inv rp b s la hs
    obtain ⟨s2, hrun, hinv2⟩ := ih s1 hinv1
    refine ⟨s2, ?_, hinv2⟩
    have hc : runFrom rp b s (la :: rest) =
        match step rp b s la with
        | none => none
        | some s' => runFrom rp b s' rest := rfl
    rw [hc, hstep]
    exact hrun

/-- Every whole run succeeds and its final state satisfies the
invariant. -/
theorem run_some_inv (rp : Int) (b : Nat → Int) (addrs : List Nat) :
    ∃ s, run rp b addrs = some s ∧ SimInv rp b s :=
  runFrom_some_inv rp b addrs initState (inv_init rp b)

/-! ### Claim theorems -/

/-- A timestamp table on which the LRU scan misbehaves: frame 1 holds
the strictly smallest timestamp, yet every entry is at least the
10000000 seed of the scan. -/
def badUsages : Nat → Int := fun i => if i = 0 then 10000001 else 10000000

set_option maxRecDepth 1000000 in
/-- Claim C1, counterexample: on the two-address input [0, 0] under
FIFO the second translation is a TLB hit (hit counter goes from 0 to 1,
fault counter stays 1), yet the replacement queue grows from one entry
to two: `on_frame_used` is not a no-op on a TLB hit, the enqueue of the
used frame happens on every translation. -/
theorem virtmem_c1_counterexample :
    ((run 0 (fun _ => (0 : Int)) [0]).getD initState).tlb_hits = 0 ∧
    ((run 0 (fun _ => (0 : Int)) [0, 0]).getD initState).tlb_hits = 1 ∧
    ((run 0 (fun _ => (0 : Int)) [0]).getD initState).page_faults = 1 ∧
    ((run 0 (fun _ => (0 : Int)) [0, 0]).getD initState).page_faults = 1 ∧
    ((run 0 (fun _ => (0 : Int)) [0]).getD initState).queue.size = 1 ∧
    ((run 0 (fun _ => (0 : Int)) [0, 0]).getD initState).queue.size = 2 := by
  decide

/-- Claim C1 (amended): under the FIFO policy (rp = 0) the replacement
queue is updated on every translation, not only on fault-time
assignments: every address enqueues the frame used for it, on TLB hits,
page-table hits and faults alike (the push being a no-op exactly when
the queue already holds FRAMES = 64 entries), and each select_victim
call (dequeue) returns the earliest-enqueued entry still in the queue.
The four per-translation conjuncts cover the four shapes a defined FIFO
step can take: TLB hit, page-table hit, fault with a free frame, fault
through victim selection. -/
theorem virtmem_c1 :
    (∀ (b : Nat → Int) (s : SimState) (la pp : Nat),
      search_tlb s.tlbState ((la >>> 8) &&& 255) = some pp →
      ∃ s', step 0 b s la = some s' ∧ s'.queue = enqueue s.queue pp) ∧
    (∀ (b : Nat → Int) (s : SimState) (la pp : Nat),
      search_tlb s.tlbState ((la >>> 8) &&& 255) = none →
      s.pagetable ((la >>> 8) &&& 255) = some pp →
      ∃ s', step 0 b s la = some s' ∧ s'.queue = enqueue s.queue pp) ∧
    (∀ (b : Nat → Int) (s : SimState) (la : Nat),
      search_tlb s.tlbState ((la >>> 8) &&& 255) = none →
      s.pagetable ((la >>> 8) &&& 255) = none →
      s.free_page < 64 →
      ∃ s', step 0 b s la = some s' ∧
        s'.queue = enqueue s.queue s.free_page) ∧
    (∀ (b : Nat → Int) (s : SimState) (la : Nat),
      search_tlb s.tlbState ((la >>> 8) &&& 255) = none →
      s.pagetable ((la >>> 8) &&& 255) = none →
      ¬ s.free_page < 64 → s.queue.size ≠ 0 →
      ∃ s', step 0 b s la = some s' ∧
        s'.queue = enqueue (dequeue s.queue).2
          (s.queue.queueArray s.queue.head)) ∧
    (∀ (q : PageQueue) (x : Nat), QueueWF q →
      QueueWF (enqueue q x) ∧
      (enqueue q x).toList =
        if q.size = 64 then q.toList else q.toList ++ [x]) ∧
    (∀ q : PageQueue, QueueWF q → 0 < q.size →
      (dequeue q).1 = q.toList.head? ∧
      (dequeue q).2.toList = q.toList.tail) := by
  refine ⟨?_, ?_, ?_, ?_, enqueue_toList, ?_⟩
  · intro b s la pp hs
    refine ⟨_, step_eq_hit 0 b s la pp hs, ?_⟩
    simp [emit, stepPolicy]
  · intro b s la pp hs hpt
    refine ⟨_, step_eq_ptHit 0 b s la pp hs hpt, ?_⟩
    simp [emit, stepPolicy, SimState.addTLB]
  · intro b s la hs hpt hfree
    refine ⟨_, step_eq_fault_free 0 b s la hs hpt hfree, ?_⟩
    simp [emit, stepPolicy, loadInto_eq]
  · intro b s la hs hpt hfree hq
    refine ⟨_, step_eq_fault_fifo b s la hs hpt hfree hq, ?_⟩
    rw [dequeue_pos s.queue hq]
    simp [emit, stepPolicy, loadInto_eq]
  · intro q hwf hsz
    exact ⟨(dequeue_toList q hwf hsz).2.1, (dequeue_toList q hwf hsz).2.2⟩

set_option maxRecDepth 1000000 in
/-- Claim C1, witness: the enqueue-on-every-translation shapes at
concrete states covering a TLB hit, a page-table hit, a fault taking a
free frame and a fault through FIFO victim selection, and the queue
refinement at concrete queues. -/
theorem virtmem_c1_witness :
    (∃ s', step 0 (fun _ => (0 : Int))
        ((run 0 (fun _ => (0 : Int)) [0]).getD initState) 0 = some s' ∧
      s'.queue =
        enqueue ((run 0 (fun _ => (0 : Int)) [0]).getD initState).queue 0) ∧
    (∃ s', step 0 (fun _ => (0 : Int))
        { initState with
          pagetable := fun k => if k = 0 then some 0 else none } 0 =
          some s' ∧
      s'.queue = enqueue initState.queue 0) ∧
    (∃ s', step 0 (fun _ => (0 : Int)) initState 0 = some s' ∧
      s'.queue = enqueue initState.queue initState.free_page) ∧
    (∃ s', step 0 (fun _ => (0 : Int))
        { initState with free_page := 64,
                         queue := enqueue (initQueue 64) 7 } 0 = some s' ∧
      s'.queue = enqueue (dequeue (enqueue (initQueue 64) 7)).2
        ((enqueue (initQueue 64) 7).queueArray
          (enqueue (initQueue 64) 7).head)) ∧
    (QueueWF (enqueue (initQueue 64) 5) ∧
      (enqueue (initQueue 64) 5).toList =
        if (initQueue 64).size = 64 then (initQueue 64).toList
        else (initQueue 64).toList ++ [5]) ∧
    ((dequeue (enqueue (initQueue 64) 5)).1 =
        (enqueue (initQueue 64) 5).toList.head? ∧
      (dequeue (enqueue (initQueue 64) 5)).2.toList =
        (enqueue (initQueue 64) 5).toList.tail) :=
  ⟨virtmem_c1.1 _ _ 0 0 (by decide),
   virtmem_c1.2.1 _ _ 0 0 (by decide) (by decide),
   virtmem_c1.2.2.1 _ _ 0 (by decide) (by decide) (by decide),
   virtmem_c1.2.2.2.1 _ _ 0 (by decide) (by decide) (by decide) (by decide),
   virtmem_c1.2.2.2.2.1 _ 5 (by decide),
   virtmem_c1.2.2.2.2.2 _ (by decide) (by decide)⟩

set_option maxRecDepth 1000000 in
/-- Claim C2, counterexample: a victim-selection state in which every
frame timestamp is at least 10000000; the scan returns frame 0 although
frame 1 has a strictly smaller last-used timestamp, so the selected
victim is not the frame with the minimal timestamp. -/
theorem virtmem_c2_counterexample :
    get_least_recently_used_element badUsages = 0 ∧
    badUsages 1 < badUsages 0 := by
  constructor
  · decide
  · decide

/-- Claim C2 (amended): under LRU, provided some resident frame has a
recorded timestamp below 10000000 (true in any run of fewer than
10000000 addresses), select_victim returns the frame whose last-used
timestamp is minimal, ties broken by the lowest frame index. -/
theorem virtmem_c2 (u : Nat → Int) (h : ∃ i, i < 64 ∧ u i < 10000000) :
    get_least_recently_used_element u < 64 ∧
    ∀ j, j < 64 → u (get_least_recently_used_element u) ≤ u j ∧
      (u j = u (get_least_recently_used_element u) →
        get_least_recently_used_element u ≤ j) :=
  getLRU_min u h

/-- Claim C2, witness: the all-zero timestamp table satisfies the
precondition and the minimality conclusion. -/
theorem virtmem_c2_witness :
    (∃ i, i < 64 ∧ (fun _ => (0 : Int)) i < 10000000) ∧
    (get_least_recently_used_element (fun _ => (0 : Int)) < 64 ∧
      ∀ j, j < 64 →
        (fun _ => (0 : Int)) (get_least_recently_used_element
          (fun _ => (0 : Int))) ≤ (fun _ => (0 : Int)) j ∧
        ((fun _ => (0 : Int)) j = (fun _ => (0 : Int))
            (get_least_recently_used_element (fun _ => (0 : Int))) →
          get_least_recently_used_element (fun _ => (0 : Int)) ≤ j)) :=
  ⟨⟨0, by norm_num⟩, virtmem_c2 _ ⟨0, by norm_num⟩⟩

/-- Claim C3: after every run (hence at every point between
translations, taking the input list as an arbitrary prefix), the page
table maps at most one logical page to any physical frame: two pages
bound to the same frame are equal. -/
theorem virtmem_c3 (rp : Int) (backing : Nat → Int) (addrs : List Nat)
    (s : SimState) (hrun : run rp backing addrs = some s) :
    ∀ p1 p2 f, s.pagetable p1 = some f → s.pagetable p2 = some f →
      p1 = p2 := by
  obtain ⟨s', hrun', hinv⟩ := run_some_inv rp backing addrs
  rw [hrun] at hrun'
  obtain rfl := Option.some.inj hrun'
  exact hinv.ptInj

set_option maxRecDepth 1000000 in
/-- Claim C3, witness: one-address run, page 0 bound to frame 0. -/
theorem virtmem_c3_witness :
    run 0 (fun _ => (0 : Int)) [0] =
      some ((run 0 (fun _ => (0 : Int)) [0]).getD initState) ∧
    ((run 0 (fun _ => (0 : Int)) [0]).getD initState).pagetable 0 =
      some 0 ∧
    (0 : Nat) = 0 :=
  ⟨rfl, by decide,
   virtmem_c3 0 (fun _ => (0 : Int)) [0] _ rfl 0 0 0 (by decide) (by decide)⟩

/-- Claim C4: the TLB probe scans the most recent min(TLB_SIZE = 16,
inserts) entries of the insert history in insertion order and returns
the frame of the first matching entry, or none. -/
theorem virtmem_c4 (h : List (Nat × Nat)) (lp : Nat)
    (hent : ∀ e ∈ h, e.1 < 256 ∧ e.2 < 256) (hlp : lp < 256) :
    search_tlb (tlbOf h) lp = tlbProbeSpec h lp := by
  unfold search_tlb tlbProbeSpec
  rw [tlbOf_tlbindex, Nat.mod_eq_of_lt hlp]
  exact searchAux_window (tlbOf h).tlb lp h hent hlp
    (h.length - (h.length - 16)) (h.length - 16) (by omega) (by omega)
    (fun j hj1 hj2 => tlbOf_slot h j hj2 (by omega))

/-- Claim C4, witness: a one-entry history probed at its own page. -/
theorem virtmem_c4_witness :
    (∀ e ∈ [((3 : Nat), (7 : Nat))], e.1 < 256 ∧ e.2 < 256) ∧
    (3 : Nat) < 256 ∧
    search_tlb (tlbOf [(3, 7)]) 3 = tlbProbeSpec [(3, 7)] 3 :=
  ⟨by decide, by norm_num, virtmem_c4 [(3, 7)] 3 (by decide) (by norm_num)⟩

/-- Claim C5: in every run the i-th page fault (0-based index i, i.e.
the (i+1)-st fault) with i < FRAMES = 64 is assigned frame i without
victim selection, and every later fault obtains its frame through
victim selection. -/
theorem virtmem_c5 (rp : Int) (backing : Nat → Int) (addrs : List Nat)
    (s : SimState) (hrun : run rp backing addrs = some s) :
    s.faultEvents.length = s.page_faults ∧
    (∀ i, i < s.faultEvents.length → i < 64 →
      s.faultEvents.getD i (0, false) = (i, false)) ∧
    (∀ i, i < s.faultEvents.length → 64 ≤ i →
      (s.faultEvents.getD i (0, false)).2 = true) := by
  obtain ⟨s', hrun', hinv⟩ := run_some_inv rp backing addrs
  rw [hrun] at hrun'
  obtain rfl := Option.some.inj hrun'
  exact ⟨hinv.evLen, hinv.evEarly, hinv.evLate⟩

set_option maxRecDepth 1000000 in
/-- Claim C5, witness: the single fault of a one-address run is
recorded as frame 0 with no victim selection. -/
theorem virtmem_c5_witness :
    run 0 (fun _ => (0 : Int)) [0] =
      some ((run 0 (fun _ => (0 : Int)) [0]).getD initState) ∧
    ((run 0 (fun _ => (0 : Int)) [0]).getD initState).faultEvents.getD 0
      (0, false) = (0, false) :=
  ⟨rfl,
   (virtmem_c5 0 (fun _ => (0 : Int)) [0] _ rfl).2.1 0 (by decide)
     (by norm_num)⟩

/-- Claim C6: every emitted physical address agrees with its logical
address on the low OFFSET_BITS = 8 bits (mask OFFSET_MASK = 255). -/
theorem virtmem_c6 (rp : Int) (backing : Nat → Int) (addrs : List Nat)
    (s : SimState) (hrun : run rp backing addrs = some s) :
    ∀ out ∈ s.outputs, out.pa &&& 255 = out.la &&& 255 := by
  obtain ⟨s', hrun', hinv⟩ := run_some_inv rp backing addrs
  rw [hrun] at hrun'
  obtain rfl := Option.some.inj hrun'
  intro out hout
  exact (hinv.outs out hout).2.2.2.1

set_option maxRecDepth 1000000 in
/-- Claim C6, witness: the line printed for address 5. -/
theorem virtmem_c6_witness :
    run 0 (fun _ => (0 : Int)) [5] =
      some ((run 0 (fun _ => (0 : Int)) [5]).getD initState) ∧
    (⟨5, 5, 0, 0, 5⟩ : Output) ∈
      ((run 0 (fun _ => (0 : Int)) [5]).getD initState).outputs ∧
    (5 : Nat) &&& 255 = (5 : Nat) &&& 255 :=
  ⟨rfl, by decide,
   virtmem_c6 0 (fun _ => (0 : Int)) [5] _ rfl ⟨5, 5, 0, 0, 5⟩ (by decide)⟩

/-- Claim C7: whenever the page table of a run state binds logical page
p to frame f, every offset o of frame f in physical memory holds
exactly the backing-store byte of page p at offset o; the binding, and
with it this correspondence, persists until frame f is next chosen as
the target of another page load. -/
theorem virtmem_c7 (rp : Int) (backing : Nat → Int) (addrs : List Nat)
    (s : SimState) (hrun : run rp backing addrs = some s) :
    ∀ p f, s.pagetable p = some f → ∀ o, o < 256 →
      s.main_memory (f * 256 + o) = backing (p * 256 + o) := by
  obtain ⟨s', hrun', hinv⟩ := run_some_inv rp backing addrs
  rw [hrun] at hrun'
  obtain rfl := Option.some.inj hrun'
  exact hinv.memPT

set_option maxRecDepth 1000000 in
/-- Claim C7, witness: after faulting page 0 into frame 0, byte 3 of
frame 0 is byte 3 of backing page 0. -/
theorem virtmem_c7_witness :
    run 0 (fun i => (i : Int)) [0] =
      some ((run 0 (fun i => (i : Int)) [0]).getD initState) ∧
    ((run 0 (fun i => (i : Int)) [0]).getD initState).pagetable 0 =
      some 0 ∧
    ((run 0 (fun i => (i : Int)) [0]).getD initState).main_memory
      (0 * 256 + 3) = (fun i => (i : Int)) (0 * 256 + 3) :=
  ⟨rfl, by decide,
   virtmem_c7 0 (fun i => (i : Int)) [0] _ rfl 0 0 (by decide) 3
     (by norm_num)⟩

/-- Claim C8, counterexample: on empty input the program does not
crash, but the reported rates are the undefined value 0/0 (IEEE NaN,
modelled as `none`), not 0.000. -/
theorem virtmem_c8_counterexample :
    (report ((run 0 (fun _ => (0 : Int)) []).getD initState)).faultRate ≠
      some 0 ∧
    (report ((run 0 (fun _ => (0 : Int)) []).getD initState)).hitRate ≠
      some 0 := by
  constructor
  · decide
  · decide

/-- Claim C8 (amended): when the input contains no addresses the final
report is still produced without failure, with zero counters, but the
two rates are the undefined 0/0 division (NaN in the C program,
`none` in the model) rather than 0.000. -/
theorem virtmem_c8 (rp : Int) (backing : Nat → Int) :
    run rp backing [] = some initState ∧
    (report initState).total = 0 ∧
    (report initState).faults = 0 ∧
    (report initState).hits = 0 ∧
    (report initState).faultRate = none ∧
    (report initState).hitRate = none :=
  ⟨rfl, rfl, rfl, rfl, rfl, rfl⟩

/-- Claim C9: every run terminates in a defined state (in particular
the FIFO dequeue at victim selection never meets an empty queue), and
every emitted line used a physical frame below FRAMES = 64, so the
memory index and the physical address stay below FRAMES * PAGE_SIZE. -/
theorem virtmem_c9 :
    (∀ (rp : Int) (backing : Nat → Int) (addrs : List Nat),
      (run rp backing addrs).isSome) ∧
    (∀ (rp : Int) (backing : Nat → Int) (addrs : List Nat) (s : SimState),
      run rp backing addrs = some s →
      ∀ out ∈ s.outputs, out.pp < 64 ∧ out.pa < 64 * 256) := by
  constructor
  · intro rp backing addrs
    obtain ⟨s, hs, _⟩ := run_some_inv rp backing addrs
    rw [hs]
    rfl
  · intro rp backing addrs s hrun out hout
    obtain ⟨s', hrun', hinv⟩ := run_some_inv rp backing addrs
    rw [hrun] at hrun'
    obtain rfl := Option.some.inj hrun'

    have h := hinv.outs out hout
    exact ⟨h.1, by have := h.2.2.2.2; omega⟩

set_option maxRecDepth 1000000 in
/-- Claim C9, witness: the one-address run is defined and its printed
line uses frame 0. -/
theorem virtmem_c9_witness :
    (run 0 (fun _ => (0 : Int)) [0]).isSome = true ∧
    run 0 (fun _ => (0 : Int)) [0] =
      some ((run 0 (fun _ => (0 : Int)) [0]).getD initState) ∧
    (⟨0, 0, 0, 0, 0⟩ : Output) ∈
      ((run 0 (fun _ => (0 : Int)) [0]).getD initState).outputs ∧
    ((0 : Nat) < 64 ∧ (0 : Nat) < 64 * 256) :=
  ⟨virtmem_c9.1 0 (fun _ => (0 : Int)) [0], rfl, by decide,
   virtmem_c9.2 0 (fun _ => (0 : Int)) [0] _ rfl ⟨0, 0, 0, 0, 0⟩
     (by decide)⟩

/-- Claim C10: the LRU scan starts its running minimum at 10000000, so
when every frame timestamp reaches that constant it returns frame 0
regardless of recency; and in any run of fewer than 10000000 addresses
every recorded timestamp stays below 10000000 (timestamps are bounded
by the address count), so the scan then returns a frame of minimal
timestamp. -/
theorem virtmem_c10 :
    (∀ u : Nat → Int, (∀ i, i < 64 → (10000000 : Int) ≤ u i) →
      get_least_recently_used_element u = 0) ∧
    (∀ (rp : Int) (backing : Nat → Int) (addrs : List Nat) (s : SimState),
      run rp backing addrs = some s → s.total_addresses < 10000000 →
      (∀ f, s.recentUsages f < (10000000 : Int)) ∧
      ∀ j, j < 64 →
        s.recentUsages (get_least_recently_used_element s.recentUsages) ≤
          s.recentUsages j) := by
  constructor
  · exact getLRU_high
  · intro rp backing addrs s hrun htot
    obtain ⟨s', hrun', hinv⟩ := run_some_inv rp backing addrs
    rw [hrun] at hrun'
    obtain rfl := Option.some.inj hrun'
    have hbound : ∀ f, s.recentUsages f < (10000000 : Int) := by
      intro f
      have h1 := hinv.usagesLe f
      have h2 := hinv.timeEq
      omega
    refine ⟨hbound, fun j hj => ?_⟩
    exact ((getLRU_min s.recentUsages ⟨0, by norm_num, hbound 0⟩).2 j hj).1

set_option maxRecDepth 1000000 in
/-- Claim C10, witness: the constant table at the seed value selects
frame 0, and a one-address run is far below the bound. -/
theorem virtmem_c10_witness :
    ((∀ i, i < 64 → (10000000 : Int) ≤ (fun _ => (10000000 : Int)) i) ∧
      get_least_recently_used_element (fun _ => (10000000 : Int)) = 0) ∧
    (run 0 (fun _ => (0 : Int)) [0] =
        some ((run 0 (fun _ => (0 : Int)) [0]).getD initState) ∧
      ((run 0 (fun _ => (0 : Int)) [0]).getD initState).total_addresses <
        10000000 ∧
      ∀ f, ((run 0 (fun _ => (0 : Int)) [0]).getD initState).recentUsages f <
        (10000000 : Int)) :=
  ⟨⟨fun _ _ => le_refl _, virtmem_c10.1 _ (fun _ _ => le_refl _)⟩,
   ⟨rfl, by decide,
    (virtmem_c10.2 0 (fun _ => (0 : Int)) [0] _ rfl (by decide)).1⟩⟩
